import Mathlib

/-!
Verification development for the cesame-etl document-processing frontend
(`frontend/src/services/api.js` together with the `DocumentProcessor`
component) and for the backend chunking/cleaning pipeline it drives.

The React component keeps its state in hooks; we embed that state as the
`AppState` structure and each handler as a state-transformation function
parameterised by the outcome of the awaited API call.  JS object-spread
updates on the keyed `processingStatus` map become `setPS`; the
`setFiles(prev => prev.map(...))` updates become `List.map` over `files`.

The backend processors (`backend/processors/chunking.py`,
`backend/processors/...`) are not part of the sources available here; the
chunker and cleaner definitions below are modelled from the specification
and are marked as such in their doc comments.
-/

namespace CesameEtl

/-- Wire-shape of a chunk as the frontend stores it (`result.chunks`
elements: `{id, content, ...}`); the component treats chunks as opaque
values, so only the fields the claims compare are kept. -/
structure Chunk where
  id : String
  content : String
deriving DecidableEq, Repr

/-- `IndexingStats` wire shape returned by the index API
(`result.indexing_stats`). -/
structure IndexingStats where
  chunks_count : Nat
  total_tokens : Nat
  chunking_strategy : String
  chunk_size : Nat
  chunk_overlap : Nat
  cleaning_applied : Bool
  cleaned_percentage : Nat
  timestamp : Nat
deriving DecidableEq, Repr

/-- A document record: one element of the `files` React state.  Fields are
those written by `handleFileUpload`, `processDocument`,
`reprocessCurrentDocument` and `sendToWeaviate`; `metadata` is kept opaque
as a string because no handler inspects it. -/
structure FileRec where
  id : String
  status : String
  chunks : List Chunk
  metadata : Option String
  indexingStats : Option IndexingStats
  error : Option String
deriving DecidableEq, Repr

/-- One value of the `processingStatus` map.  The JS code writes whole
objects `{status, progress}` or `{status, error}`; absent fields are
`none`. -/
structure StatusEntry where
  status : String
  progress : Option Nat
  error : Option String
deriving DecidableEq, Repr

/-- The React component state relevant to the lifecycle claims. -/
structure AppState where
  files : List FileRec
  processingStatus : List (String × StatusEntry)
  currentDocument : Option FileRec
  documentChunks : List Chunk
  indexingStats : Option IndexingStats
  weaviateStatus : String
  embeddingStatus : String
deriving DecidableEq, Repr

/-- JS object-spread update of the keyed map:
`setProcessingStatus(prev => ({...prev, [id]: e}))` replaces the entry for
`id` when present and adds it otherwise. -/
def setPS (m : List (String × StatusEntry)) (k : String) (e : StatusEntry) :
    List (String × StatusEntry) :=
  if m.any (fun p => p.1 = k) then
    m.map (fun p => if p.1 = k then (k, e) else p)
  else
    m ++ [(k, e)]

/-- Lookup in the `processingStatus` map. -/
def getPS (m : List (String × StatusEntry)) (k : String) : Option StatusEntry :=
  (m.find? (fun p => p.1 = k)).map (fun p => p.2)

/-- Lookup of a document record by id in `files`. -/
def getFile (s : AppState) (i : String) : Option FileRec :=
  s.files.find? (fun f => f.id = i)

/-- Outcome of the awaited `documentService.processDocument` API call:
either the response body (chunks and metadata) or a thrown error whose
`message` is `msg`. -/
inductive ApiResult where
  | ok (chunks : List Chunk) (metadata : String)
  | err (msg : String)
deriving DecidableEq, Repr

/-- Outcome of the awaited `documentService.indexDocument` API call. -/
inductive IndexApiResult where
  | ok (stats : IndexingStats)
  | err (msg : String)
deriving DecidableEq, Repr

/-- How one call to `sendToWeaviate` finished.  `skipped` is the silent
early `return` of the guard; `connectionError` is the outcome the
specification's error taxonomy prescribes for a disconnected collaborator
(the code never produces it, which claim C1 is about). -/
inductive SendOutcome where
  | skipped
  | indexedOk
  | indexFailed (msg : String)
  | connectionError
deriving DecidableEq, Repr

/-- `processDocument(fileObj)` (api.js component, lines 179-247), modelled
at the moment its awaited API call settles with result `r` for document
`fileId`.  Success: `processingStatus[id] := {completed, 100}`, the file
record gets status `completed` with the new chunks and metadata, and the
preview chunks update when the processed document is the current one.
Failure: `processingStatus[id] := {error, msg}` and the file record gets
status `error` with the message. -/
def processDocument (s : AppState) (fileId : String) (r : ApiResult) : AppState :=
  match r with
  | .ok chunks md =>
      { s with
        processingStatus := setPS s.processingStatus fileId ⟨"completed", some 100, none⟩
        files := s.files.map (fun f =>
          if f.id = fileId then
            { f with status := "completed", chunks := chunks, metadata := some md }
          else f)
        documentChunks :=
          match s.currentDocument with
          | some cd => if cd.id = fileId then chunks else s.documentChunks
          | none => s.documentChunks }
  | .err m =>
      { s with
        processingStatus := setPS s.processingStatus fileId ⟨"error", none, some m⟩
        files := s.files.map (fun f =>
          if f.id = fileId then { f with status := "error", error := some m } else f) }

/-- `reprocessCurrentDocument()` (lines 280-337), modelled at the moment
its awaited API call settles.  No current document: plain `return`.
Success: status entry `{completed, 100}`, the record for
`currentDocument.id` gets status `completed` with the new chunks and
metadata, and `documentChunks` is replaced.  Failure: only
`processingStatus` is written (`{error, msg}`); `files` and
`documentChunks` are untouched. -/
def reprocessCurrentDocument (s : AppState) (r : ApiResult) : AppState :=
  match s.currentDocument with
  | none => s
  | some cd =>
    match r with
    | .ok chunks md =>
        { s with
          processingStatus := setPS s.processingStatus cd.id ⟨"completed", some 100, none⟩
          files := s.files.map (fun f =>
            if f.id = cd.id then
              { f with status := "completed", chunks := chunks, metadata := some md }
            else f)
          documentChunks := chunks }
    | .err m =>
        { s with
          processingStatus := setPS s.processingStatus cd.id ⟨"error", none, some m⟩ }

/-- `sendToWeaviate()` (lines 372-430).  The guard
`if (!currentDocument || weaviateStatus !== 'connected' || embeddingStatus !== 'connected') return;`
is a silent early return.  Past the guard, the awaited index call either
succeeds — status entry `{indexed, 100}`, global `indexingStats` set, file
record gets status `indexed` and its `indexingStats` — or throws — status
entry `{error, msg}` only, plus an `alert`. -/
def sendToWeaviate (s : AppState) (r : IndexApiResult) : AppState × SendOutcome :=
  match s.currentDocument with
  | none => (s, .skipped)
  | some cd =>
    if s.weaviateStatus = "connected" ∧ s.embeddingStatus = "connected" then
      match r with
      | .ok stats =>
          ({ s with
             processingStatus := setPS s.processingStatus cd.id ⟨"indexed", some 100, none⟩
             indexingStats := some stats
             files := s.files.map (fun f =>
               if f.id = cd.id then
                 { f with status := "indexed", indexingStats := some stats }
               else f) }, .indexedOk)
      | .err m =>
          ({ s with
             processingStatus := setPS s.processingStatus cd.id ⟨"error", none, some m⟩ },
           .indexFailed m)
    else (s, .skipped)

/-- Values stored in the configuration object. -/
inductive ConfigValue where
  | num (n : Int)
  | str (s : String)
  | flag (b : Bool)
deriving DecidableEq, Repr

/-- The nested `config` object, read as a total map
section-name → key-name → value (JS object access). -/
def Config : Type := String → String → ConfigValue

/-- `handleConfigChange(section, key, value)` (lines 269-277):
`setConfig(prev => ({...prev, [section]: {...prev[section], [key]: value}}))` —
the section object is rebuilt with only `key` replaced, every other
section is spread through unchanged. -/
def handleConfigChange (cfg : Config) (sect key : String) (v : ConfigValue) : Config :=
  fun s' k' =>
    if s' = sect then
      if k' = key then v else cfg sect k'
    else cfg s' k'

/-! ### Chunker (spec-modelled)

The chunking implementation lives in `backend/processors/chunking.py`,
which is not among the available sources; the definitions below are
modelled from the specification (§3 invariants, §4.2 `fixed` strategy,
§7 `ConfigError`). -/

/-- Chunk configuration as the spec's `ChunkConfig` (the fields the fixed
strategy and validation use). -/
structure ChunkCfg where
  chunkSize : Nat
  overlapSize : Nat
  minChunkSize : Nat
deriving DecidableEq, Repr

/-- Modelled from the spec: §3 requires
`chunkSize > minChunkSize > 0` and `0 ≤ overlapSize < chunkSize`
(`overlapSize` is a `Nat`, so the lower bound is automatic). -/
def validChunkCfg (c : ChunkCfg) : Bool :=
  decide (c.minChunkSize < c.chunkSize ∧ 0 < c.minChunkSize ∧ c.overlapSize < c.chunkSize)

/-- The spec's chunking error taxonomy entry relevant here (§7). -/
inductive ChunkError where
  | configError
deriving DecidableEq, Repr

/-- A chunk as produced by `split`: offsets into the cleaned text plus the
slice content (no metadata yet, §4.2). -/
structure OffsetChunk where
  start : Nat
  stop : Nat
  content : List Char
deriving DecidableEq, Repr

/-- Modelled from the spec: the fixed-strategy sliding window (§4.2).
Window starts advance by `stride` while inside the text; each window is
truncated to the remaining text, and the walk stops at the window that
reaches the end.  `fuel` bounds the recursion (callers pass `n + 1`,
enough since `stride ≥ 1` for valid configs). -/
def fixedWindows (n size stride : Nat) : Nat → Nat → List (Nat × Nat)
  | 0, _ => []
  | fuel + 1, pos =>
    if pos < n then
      let e := min (pos + size) n
      if e = n then [(pos, e)]
      else (pos, e) :: fixedWindows n size stride fuel (pos + stride)
    else []

/-- Modelled from the spec: if the final window's content length is below
`minChunkSize`, it is merged into the previous chunk instead of being
emitted on its own (§4.2 fixed strategy). -/
def mergeLast (m : Nat) : List (Nat × Nat) → List (Nat × Nat)
  | [] => []
  | [w] => [w]
  | [a, b] => if b.2 - b.1 < m then [(a.1, b.2)] else [a, b]
  | a :: b :: c :: rest => a :: mergeLast m (b :: c :: rest)

/-- Offsets produced by the fixed strategy for a cleaned text of length
`n`. -/
def fixedOffsets (n : Nat) (c : ChunkCfg) : List (Nat × Nat) :=
  mergeLast c.minChunkSize
    (fixedWindows n c.chunkSize (c.chunkSize - c.overlapSize) (n + 1) 0)

/-- Modelled from the spec: `split(cleanedText, ChunkConfig)` for the
fixed strategy.  Invalid configurations are rejected with `ConfigError`
synchronously, before any chunk is produced (§4.2 failure, §7). -/
def split (text : List Char) (c : ChunkCfg) : Except ChunkError (List OffsetChunk) :=
  if validChunkCfg c then
    .ok ((fixedOffsets text.length c).map
      (fun p => ⟨p.1, p.2, (text.drop p.1).take (p.2 - p.1)⟩))
  else
    .error .configError

/-! ### Simulated-progress traces

`processDocument`, `reprocessCurrentDocument` and `sendToWeaviate` each
drive the per-document `processingStatus` entry through the same shape of
run: an initial `{status, progress: 0}` write, `setInterval` ticks that
add a fixed increment and write it only `if (progress <= 90)`, then on
settlement either `{finalStatus, progress: 100}` or `{error, message}`.
The trace model below replays the writes to one document's entry. -/

/-- Which of the three handlers drives the run (increment 5, 10, 5 and
in-flight status strings per the source). -/
inductive RunKind where
  | processingRun
  | reprocessingRun
  | indexingRun
deriving DecidableEq, Repr

/-- In-flight status string the handler writes. -/
def runStatusName : RunKind → String
  | .processingRun => "processing"
  | .reprocessingRun => "reprocessing"
  | .indexingRun => "indexing"

/-- Per-tick progress increment (`progress += 5` / `+= 10`). -/
def runIncrement : RunKind → Nat
  | .processingRun => 5
  | .reprocessingRun => 10
  | .indexingRun => 5

/-- Status written on a successful settlement. -/
def runDoneStatus : RunKind → String
  | .processingRun => "completed"
  | .reprocessingRun => "completed"
  | .indexingRun => "indexed"

/-- One live `setInterval` timer: the kind of the run that registered it
and its own local `progress` counter (each handler closes over a fresh
`let progress = 0`). -/
structure IntervalState where
  kind : RunKind
  counter : Nat
deriving DecidableEq, Repr

/-- The per-document slice of the state: the `processingStatus` entry (if
written yet) plus every live interval for this document id.  A list is
needed because the source can have several intervals alive for one id at
once: the pending-files effect can start duplicate runs, and — crucially —
none of the three catch blocks calls `clearInterval`, so a failed run's
interval stays live and keeps firing. -/
structure RunState where
  entry : Option StatusEntry
  intervals : List IntervalState
deriving DecidableEq, Repr

/-- Events of one document's run history: a handler starting (which both
writes the initial entry and registers a fresh interval), interval `i`
firing a tick, and the settlement of the run owning interval `i`.
Settlement events are indexed by the interval so that several live runs
can settle independently; the model lets any live interval's run settle
at any time, a superset of the source's schedules (a run settles once),
so the invariant proved over it covers every source behavior. -/
inductive RunEvent where
  | start (k : RunKind)
  | tick (i : Nat)
  | finishOk (i : Nat)
  | finishErr (i : Nat) (m : String)
deriving DecidableEq, Repr

/-- One scheduler step, from the source's handlers: `start` performs the
initial `{status, progress: 0}` write and registers an interval; `tick i`
makes interval `i` add its increment to its own counter and write
`{in-flight status, counter}` only while the new counter is `<= 90`
(the `if (progress <= 90)` guard) — this happens even after its run
already failed, overwriting whatever entry is there; `finishOk i` calls
`clearInterval` (interval removed) and writes `{doneStatus, 100}`;
`finishErr i` writes `{error, message}` but does NOT clear the interval
(no catch block in the source does), so the leaked interval keeps
ticking. -/
def runStep (st : RunState) : RunEvent → RunState
  | .start k =>
    ⟨some ⟨runStatusName k, some 0, none⟩, st.intervals ++ [⟨k, 0⟩]⟩
  | .tick i =>
    match st.intervals[i]? with
    | none => st
    | some iv =>
      ⟨if iv.counter + runIncrement iv.kind ≤ 90 then
          some ⟨runStatusName iv.kind, some (iv.counter + runIncrement iv.kind), none⟩
        else st.entry,
        st.intervals.set i ⟨iv.kind, iv.counter + runIncrement iv.kind⟩⟩
  | .finishOk i =>
    match st.intervals[i]? with
    | none => st
    | some iv =>
      ⟨some ⟨runDoneStatus iv.kind, some 100, none⟩, st.intervals.eraseIdx i⟩
  | .finishErr i m =>
    match st.intervals[i]? with
    | none => st
    | some _ =>
      ⟨some ⟨"error", none, some m⟩, st.intervals⟩

/-- Replay a run history from the initial state (no entry, no
intervals). -/
def runExec (evs : List RunEvent) : RunState :=
  evs.foldl runStep ⟨none, []⟩

/-- The three in-flight status strings the interval writes carry. -/
def inFlightStatus (s : String) : Bool :=
  s = "processing" || s = "reprocessing" || s = "indexing"

/-- The progress invariant of claim C10: recorded progress stays in
`[0, 100]`; an entry showing an in-flight run — including one written by
an interval leaked from a failed run — never shows progress above 90;
and progress is 100 exactly on the entries written by a successful
settlement. -/
def progressInv (st : RunState) : Prop :=
  match st.entry with
  | none => True
  | some e =>
    (∀ p, e.progress = some p → p ≤ 100) ∧
    (inFlightStatus e.status = true → ∀ p, e.progress = some p → p ≤ 90) ∧
    (e.progress = some 100 → e.status = "completed" ∨ e.status = "indexed") ∧
    ((e.status = "completed" ∨ e.status = "indexed") → e.progress = some 100)

/-! ### TextCleaner (spec-modelled)

The cleaner lives in the backend processors, which are not among the
available sources.  Modelled from the spec §4.1: a multi-stage normalizer
over decoded text, stages in a fixed order (whitespace, quotes,
hyphenation, page numbers, headers, footers), each independently toggled.
Page segmentation is left open by the spec (§9 open question); here pages
are delimited by the form-feed character the extraction collaborator
emits, and lines by the newline character.  §4.1/§8 contract that `clean`
is idempotent; the stage sequence is therefore iterated to its fixed
point (a single pass could re-expose removable lines to earlier stages,
which the spec's contract rules out). -/

/-- Page separator: the form-feed page-break marker (§9 suggests explicit
page-break markers from the extraction collaborator). -/
def pageSep : Char := Char.ofNat 12

/-- Blank/space characters collapsed by whitespace normalization. -/
def isSpaceChar (c : Char) : Bool := c = ' ' || c = '\t'

/-- Split a character list on a separator character; never returns `[]`
(an empty text is one empty segment). -/
def splitOnCh (sep : Char) : List Char → List (List Char)
  | [] => [[]]
  | c :: rest =>
    if c = sep then [] :: splitOnCh sep rest
    else
      match splitOnCh sep rest with
      | [] => [[c]]
      | h :: t => (c :: h) :: t

/-- Join segments back with the separator. -/
def joinCh (sep : Char) : List (List Char) → List Char
  | [] => []
  | [l] => l
  | l :: h :: t => l ++ sep :: joinCh sep (h :: t)

/-- Drop matching elements from both edges of a list. -/
def dropEdges (p : α → Bool) (l : List α) : List α :=
  ((l.dropWhile p).reverse.dropWhile p).reverse

/-- Trim the space characters at a line's edges. -/
def trimLine (l : List Char) : List Char := dropEdges isSpaceChar l

/-- Collapse a run of space characters to its last one. -/
def collapseSpaces : List Char → List Char
  | [] => []
  | [c] => [c]
  | c₁ :: c₂ :: rest =>
    if isSpaceChar c₁ && isSpaceChar c₂ then collapseSpaces (c₂ :: rest)
    else c₁ :: collapseSpaces (c₂ :: rest)

/-- Modelled from the spec: normalize-whitespace — collapse runs of
blank/space characters and trim line edges, per line. -/
def wsStage (x : List Char) : List Char :=
  joinCh '\n' ((splitOnCh '\n' x).map (fun l => collapseSpaces (trimLine l)))

/-- Typographic single-quote variants. -/
def isSingleQuoteVariant (c : Char) : Bool :=
  c.val = 0x2018 || c.val = 0x2019 || c.val = 0x201B

/-- Typographic double-quote variants. -/
def isDoubleQuoteVariant (c : Char) : Bool :=
  c.val = 0x201C || c.val = 0x201D || c.val = 0x201E

/-- Any typographic quote variant. -/
def isQuoteVariant (c : Char) : Bool := isSingleQuoteVariant c || isDoubleQuoteVariant c

/-- Map a quote variant to the canonical ASCII quote of its kind. -/
def canonChar (c : Char) : Char :=
  if isSingleQuoteVariant c then Char.ofNat 39
  else if isDoubleQuoteVariant c then Char.ofNat 34
  else c

/-- Modelled from the spec: normalize-quotes — map typographic quote
variants to a canonical pair. -/
def quotesStage (x : List Char) : List Char := x.map canonChar

/-- Lowercase ASCII letter. -/
def isLowerAlpha (c : Char) : Bool := 97 ≤ c.val && c.val ≤ 122

/-- Modelled from the spec: fix-hyphenation — join
`word-<linebreak>word` into `wordword` (dropping the hyphen and the
break) when both fragments are lowercase alphabetic. -/
def hyphStage : List Char → List Char
  | c₁ :: hy :: nl :: c₂ :: rest2 =>
    if hy = '-' && nl = '\n' && isLowerAlpha c₁ && isLowerAlpha c₂ then
      c₁ :: hyphStage (c₂ :: rest2)
    else c₁ :: hyphStage (hy :: nl :: c₂ :: rest2)
  | c :: rest => c :: hyphStage rest
  | [] => []

/-- ASCII digit. -/
def isDigitCh (c : Char) : Bool := 48 ≤ c.val && c.val ≤ 57

/-- Space-separated words of a line. -/
def wordsOf (t : List Char) : List (List Char) :=
  (splitOnCh ' ' t).filter (fun w => !w.isEmpty)

/-- The `Page N of M` pattern. -/
def isPageOfPattern (t : List Char) : Bool :=
  match wordsOf t with
  | [p, n, o, m] =>
    p == ['P', 'a', 'g', 'e'] && o == ['o', 'f'] &&
    !n.isEmpty && n.all isDigitCh && !m.isEmpty && m.all isDigitCh
  | _ => false

/-- A page-number line: a standalone numeral or a `Page N of M` line. -/
def isPageNumLine (l : List Char) : Bool :=
  let t := trimLine l
  (!t.isEmpty && t.all isDigitCh) || isPageOfPattern t

/-- Modelled from the spec: remove-page-numbers — drop page-number lines
located at a page boundary (the runs of such lines at the top and the
bottom of each page segment). -/
def pageNumStage (x : List Char) : List Char :=
  joinCh pageSep ((splitOnCh pageSep x).map (fun page =>
    joinCh '\n' (dropEdges isPageNumLine (splitOnCh '\n' page))))

/-- A line is a header candidate when it is the repeated (`≥ 2`
occurrences) first line of at least 60% of the page segments. -/
def headerCandidate (pages : List (List (List Char))) (l : List Char) : Bool :=
  let c := pages.countP (fun p => p.head? == some l)
  2 ≤ c && 3 * pages.length ≤ 5 * c

/-- Drop the top line of every page whose top line is a header
candidate. -/
def headerStagePages (pages : List (List (List Char))) : List (List (List Char)) :=
  pages.map (fun p =>
    match p.head? with
    | some l => if headerCandidate pages l then p.tail else p
    | none => p)

/-- Modelled from the spec: remove-headers — a line repeated at the top
of ≥ 60% of the detected page segments is removed from every
occurrence. -/
def headerStage (x : List Char) : List Char :=
  let pages := (splitOnCh pageSep x).map (splitOnCh '\n')
  joinCh pageSep ((headerStagePages pages).map (joinCh '\n'))

/-- A line is a footer candidate when it is the repeated (`≥ 2`
occurrences) last line of at least 60% of the page segments. -/
def footerCandidate (pages : List (List (List Char))) (l : List Char) : Bool :=
  let c := pages.countP (fun p => p.getLast? == some l)
  2 ≤ c && 3 * pages.length ≤ 5 * c

/-- Drop the bottom line of every page whose bottom line is a footer
candidate. -/
def footerStagePages (pages : List (List (List Char))) : List (List (List Char)) :=
  pages.map (fun p =>
    match p.getLast? with
    | some l => if footerCandidate pages l then p.dropLast else p
    | none => p)

/-- Modelled from the spec: remove-footers — a line repeated at the
bottom of ≥ 60% of the detected page segments is removed from every
occurrence. -/
def footerStage (x : List Char) : List Char :=
  let pages := (splitOnCh pageSep x).map (splitOnCh '\n')
  joinCh pageSep ((footerStagePages pages).map (joinCh '\n'))

/-- `CleaningConfig`: one boolean flag per cleaning rule, named as in
`DEFAULT_CONFIG.cleaning`. -/
structure CleaningConfig where
  removeHeaders : Bool
  removeFooters : Bool
  removePageNumbers : Bool
  removeExtraWhitespace : Bool
  normalizeQuotes : Bool
  fixHyphenation : Bool
deriving DecidableEq, Repr

/-- Apply a stage only when its flag is on. -/
def stageOn (flag : Bool) (f : List Char → List Char) (x : List Char) : List Char :=
  if flag then f x else x

/-- One pass of the cleaning stages, in the spec's fixed order
(whitespace, quotes, hyphenation, page numbers, headers, footers), each
independently toggled. -/
def cleanPass (c : CleaningConfig) (x : List Char) : List Char :=
  stageOn c.removeFooters footerStage
    (stageOn c.removeHeaders headerStage
      (stageOn c.removePageNumbers pageNumStage
        (stageOn c.fixHyphenation hyphStage
          (stageOn c.normalizeQuotes quotesStage
            (stageOn c.removeExtraWhitespace wsStage x)))))

/-- Termination measure for the cleaning iteration: every stage either
deletes characters or (for quote normalization) eliminates quote
variants, so any changing pass strictly decreases this. -/
def cleanMeasure (x : List Char) : Nat :=
  2 * x.length + x.countP isQuoteVariant

/-- Iterate the cleaning pass until it no longer changes the text or the
fuel runs out (callers supply enough fuel to reach the fixed point). -/
def cleanIter (c : CleaningConfig) : Nat → List Char → List Char
  | 0, x => x
  | fuel + 1, x =>
    if cleanPass c x = x then x else cleanIter c fuel (cleanPass c x)

/-- The cleaned text: the fixed point of the stage pass. -/
def cleanText (c : CleaningConfig) (x : List Char) : List Char :=
  cleanIter c (cleanMeasure x + 1) x

/-- Cleaning stats per §4.1: original/cleaned lengths, the integer
reduction percentage, and the names of the stages that deleted content
(recorded from the first pass). -/
structure CleaningStats where
  original_length : Nat
  cleaned_length : Nat
  reduction_percentage : Nat
  removed_elements : List String
deriving DecidableEq, Repr

/-- Stage names that deleted or changed content on the first pass. -/
def removedElementsFirstPass (c : CleaningConfig) (x : List Char) : List String :=
  let x1 := stageOn c.removeExtraWhitespace wsStage x
  let x2 := stageOn c.normalizeQuotes quotesStage x1
  let x3 := stageOn c.fixHyphenation hyphStage x2
  let x4 := stageOn c.removePageNumbers pageNumStage x3
  let x5 := stageOn c.removeHeaders headerStage x4
  let x6 := stageOn c.removeFooters footerStage x5
  (if x1 ≠ x then ["whitespace"] else []) ++
  (if x2 ≠ x1 then ["quotes"] else []) ++
  (if x3 ≠ x2 then ["hyphenation"] else []) ++
  (if x4 ≠ x3 then ["page_numbers"] else []) ++
  (if x5 ≠ x4 then ["headers"] else []) ++
  (if x6 ≠ x5 then ["footers"] else [])

/-- Result of `clean`: the cleaned text and its stats. -/
structure CleanResult where
  text : List Char
  stats : CleaningStats
deriving DecidableEq, Repr

/-- Modelled from the spec: `clean(rawText, CleaningConfig) →
(cleanedText, CleaningStats)` (§4.1); `original_length` is the input's
length, `cleaned_length` the output's, and `reduction_percentage` the
integer percentage `100 × (1 − cleaned/original)`. -/
def clean (x : List Char) (c : CleaningConfig) : CleanResult :=
  let t := cleanText c x
  { text := t
    stats :=
      { original_length := x.length
        cleaned_length := t.length
        reduction_percentage :=
          if x.length = 0 then 0 else (100 * (x.length - t.length)) / x.length
        removed_elements := removedElementsFirstPass c x } }

/-- A cleaning stage is measure-good when it never increases
`cleanMeasure` and strictly decreases it whenever it changes the text. -/
def StageGood (f : List Char → List Char) : Prop :=
  ∀ x, cleanMeasure (f x) ≤ cleanMeasure x ∧ (f x ≠ x → cleanMeasure (f x) < cleanMeasure x)

/-! ### Concrete example data used by witnesses and counterexamples -/

/-- A chunk present before re-running the pipeline. -/
def exChunk0 : Chunk := ⟨"chunk-0", "old content"⟩

/-- A chunk produced by a run with the earlier-requested configuration. -/
def exChunkA : Chunk := ⟨"chunk-a", "stale run output"⟩

/-- A chunk produced by a run with the most recently requested
configuration. -/
def exChunkB : Chunk := ⟨"chunk-b", "fresh run output"⟩

/-- Example indexing stats. -/
def exStats : IndexingStats := ⟨3, 120, "fixed", 800, 100, true, 10, 0⟩

/-- A processed document record. -/
def exDoc : FileRec := ⟨"doc-1", "completed", [exChunk0], some "md", none, none⟩

/-- An indexed document record. -/
def exDocIndexed : FileRec :=
  { exDoc with status := "indexed", indexingStats := some exStats }

/-- App state with `exDoc` selected and both collaborators connected. -/
def exState : AppState :=
  ⟨[exDoc], [], some exDoc, [exChunk0], none, "connected", "connected"⟩

/-- Same state with the vector-store collaborator disconnected. -/
def exStateDisconnected : AppState := { exState with weaviateStatus := "disconnected" }

/-- App state whose selected document is already indexed. -/
def exStateIndexed : AppState :=
  { exState with files := [exDocIndexed], currentDocument := some exDocIndexed }

/-- A flat default-like configuration map. -/
def exConfig : Config := fun _ _ => ConfigValue.num 0

/-- Cleaning config with only whitespace normalization on. -/
def exCleanCfg : CleaningConfig := ⟨false, false, false, true, false, false⟩

/-! ## Lemmas about segment splitting and joining -/

open scoped List

theorem splitOnCh_ne_nil (sep : Char) (x : List Char) : splitOnCh sep x ≠ [] := by
  cases x with
  | nil => simp [splitOnCh]
  | cons c rest =>
    simp only [splitOnCh]
    by_cases h : c = sep
    · simp [h]
    · simp only [if_neg h]
      cases splitOnCh sep rest <;> simp

theorem join_split (sep : Char) (x : List Char) : joinCh sep (splitOnCh sep x) = x := by
  induction x with
  | nil => simp [splitOnCh, joinCh]
  | cons c rest ih =>
    simp only [splitOnCh]
    by_cases h : c = sep
    · subst h
      simp only [if_pos rfl]
      cases hr : splitOnCh c rest with
      | nil => exact absurd hr (splitOnCh_ne_nil c rest)
      | cons hh tt =>
        rw [hr] at ih
        simp [joinCh, ih]
    · simp only [if_neg h]
      cases hr : splitOnCh sep rest with
      | nil => exact absurd hr (splitOnCh_ne_nil sep rest)
      | cons hh tt =>
        rw [hr] at ih
        cases tt with
        | nil => simp [joinCh] at ih ⊢; exact ih
        | cons t1 t2 =>
          simp only [joinCh] at ih ⊢
          rw [← ih]
          simp

theorem joinCh_sublist_of_forall₂ (sep : Char) {ls' ls : List (List Char)}
    (h : List.Forall₂ (· <+ ·) ls' ls) : joinCh sep ls' <+ joinCh sep ls := by
  induction h with
  | nil => exact List.Sublist.refl _
  | @cons a' a t' t hab htail ih =>
    cases htail with
    | nil => simpa [joinCh] using hab
    | cons hb ht =>
      simp only [joinCh]
      exact hab.append (List.Sublist.cons₂ _ ih)

theorem joinCh_sublist_of_sublist (sep : Char) {ls' ls : List (List Char)}
    (h : ls' <+ ls) : joinCh sep ls' <+ joinCh sep ls := by
  induction h with
  | slnil => exact List.Sublist.refl _
  | @cons ls' ls l h ih =>
    cases ls with
    | nil =>
      have he : ls' = [] := List.sublist_nil.mp h
      subst he
      simp [joinCh]
    | cons b u =>
      simp only [joinCh]
      exact ih.trans ((List.sublist_cons_self _ _).trans (List.sublist_append_right _ _))
  | @cons₂ ls' ls l h ih =>
    cases ls with
    | nil =>
      have he : ls' = [] := List.sublist_nil.mp h
      subst he
      exact List.Sublist.refl _
    | cons b u =>
      cases ls' with
      | nil =>
        simp only [joinCh]
        exact List.sublist_append_left _ _
      | cons b' u' =>
        simp only [joinCh]
        exact (List.Sublist.refl l).append (List.Sublist.cons₂ _ ih)

theorem forall₂_sublist_map {β : Type} (f : List β → List β) (hf : ∀ l, f l <+ l) :
    ∀ ls : List (List β), List.Forall₂ (· <+ ·) (ls.map f) ls := by
  intro ls
  induction ls with
  | nil => exact List.Forall₂.nil
  | cons a t ih => exact List.Forall₂.cons (hf a) ih

theorem perSegment_sublist (sep : Char) (g : List Char → List Char)
    (hg : ∀ seg, g seg <+ seg) (x : List Char) :
    joinCh sep ((splitOnCh sep x).map g) <+ x := by
  have h := joinCh_sublist_of_forall₂ sep (forall₂_sublist_map g hg (splitOnCh sep x))
  rwa [join_split] at h

/-! ## Each deleting stage returns a sublist of its input -/

theorem dropEdges_sublist (p : α → Bool) (l : List α) : dropEdges p l <+ l := by
  unfold dropEdges
  have h1 : l.dropWhile p <+ l := List.dropWhile_sublist p
  have h2 : (l.dropWhile p).reverse.dropWhile p <+ (l.dropWhile p).reverse :=
    List.dropWhile_sublist p
  have h3 := h2.reverse
  rw [List.reverse_reverse] at h3
  exact h3.trans h1

theorem collapseSpaces_sublist : ∀ l, collapseSpaces l <+ l := by
  intro l
  induction l with
  | nil => simp [collapseSpaces]
  | cons c rest ih =>
    cases rest with
    | nil => simp [collapseSpaces]
    | cons c₂ tt =>
      simp only [collapseSpaces]
      split
      · exact ih.trans (List.sublist_cons_self _ _)
      · exact List.Sublist.cons₂ _ ih

theorem wsStage_sublist (x : List Char) : wsStage x <+ x := by
  unfold wsStage
  exact perSegment_sublist _ _
    (fun l => (collapseSpaces_sublist (trimLine l)).trans (dropEdges_sublist _ l)) x

theorem hyphStage_sublist : ∀ x, hyphStage x <+ x := by
  intro x
  induction x using hyphStage.induct with
  | case1 c₁ hy nl c₂ rest2 h ih =>
    simp only [hyphStage, h, if_pos]
    exact List.Sublist.cons₂ _ (List.Sublist.cons _ (List.Sublist.cons _ ih))
  | case2 c₁ hy nl c₂ rest2 h ih =>
    simp only [hyphStage, h, if_neg]
    exact List.Sublist.cons₂ _ ih
  | case3 c rest h ih =>
    rcases rest with _ | ⟨a, _ | ⟨b, _ | ⟨d, t⟩⟩⟩
    · exact List.Sublist.cons₂ _ ih
    · exact List.Sublist.cons₂ _ ih
    · exact List.Sublist.cons₂ _ ih
    · exact (h a b d t rfl).elim
  | case4 =>
    simp [hyphStage]

theorem pageNumStage_sublist (x : List Char) : pageNumStage x <+ x := by
  unfold pageNumStage
  apply perSegment_sublist
  intro seg
  have h := joinCh_sublist_of_sublist '\n'
    (dropEdges_sublist isPageNumLine (splitOnCh '\n' seg))
  rwa [join_split] at h

theorem forall₂_map_join (sep : Char) {ls' ls : List (List (List Char))}
    (h : List.Forall₂ (· <+ ·) ls' ls) :
    List.Forall₂ (· <+ ·) (ls'.map (joinCh sep)) (ls.map (joinCh sep)) := by
  induction h with
  | nil => exact .nil
  | cons hab ht ih => exact .cons (joinCh_sublist_of_sublist sep hab) ih

theorem map_join_split (sep : Char) (ls : List (List Char)) :
    (ls.map (splitOnCh sep)).map (joinCh sep) = ls := by
  induction ls with
  | nil => rfl
  | cons a t ih => simp [join_split, ih]

theorem headerStagePages_forall₂ (pages : List (List (List Char))) :
    List.Forall₂ (· <+ ·) (headerStagePages pages) pages := by
  apply forall₂_sublist_map
  intro p
  cases hp : p.head? with
  | none => simp [hp]
  | some l =>
    simp only [hp]
    split
    · exact List.tail_sublist p
    · exact List.Sublist.refl p

theorem headerStage_sublist (x : List Char) : headerStage x <+ x := by
  unfold headerStage
  have h1 := forall₂_map_join '\n'
    (headerStagePages_forall₂ ((splitOnCh pageSep x).map (splitOnCh '\n')))
  have h2 := joinCh_sublist_of_forall₂ pageSep h1
  rwa [map_join_split, join_split] at h2

theorem footerStagePages_forall₂ (pages : List (List (List Char))) :
    List.Forall₂ (· <+ ·) (footerStagePages pages) pages := by
  apply forall₂_sublist_map
  intro p
  cases hp : p.getLast? with
  | none => simp [hp]
  | some l =>
    simp only [hp]
    split
    · exact List.dropLast_sublist p
    · exact List.Sublist.refl p

theorem footerStage_sublist (x : List Char) : footerStage x <+ x := by
  unfold footerStage
  have h1 := forall₂_map_join '\n'
    (footerStagePages_forall₂ ((splitOnCh pageSep x).map (splitOnCh '\n')))
  have h2 := joinCh_sublist_of_forall₂ pageSep h1
  rwa [map_join_split, join_split] at h2

/-! ## Quote normalization lemmas -/

theorem canonChar_not_variant (c : Char) : isQuoteVariant (canonChar c) = false := by
  unfold canonChar
  by_cases h1 : isSingleQuoteVariant c
  · rw [if_pos h1]; decide
  · rw [if_neg h1]
    by_cases h2 : isDoubleQuoteVariant c
    · rw [if_pos h2]; decide
    · rw [if_neg h2]
      simp only [isQuoteVariant, Bool.or_eq_false_iff]
      exact ⟨Bool.eq_false_iff.mpr h1, Bool.eq_false_iff.mpr h2⟩

theorem canonChar_eq_of_not_variant {c : Char} (h : isQuoteVariant c = false) :
    canonChar c = c := by
  rw [isQuoteVariant, Bool.or_eq_false_iff] at h
  simp [canonChar, h.1, h.2]

theorem quotesStage_count (x : List Char) :
    (quotesStage x).countP isQuoteVariant = 0 := by
  rw [quotesStage, List.countP_eq_zero]
  intro a ha
  rcases List.mem_map.mp ha with ⟨b, _, hb⟩
  subst hb
  simp [canonChar_not_variant b]

theorem quotesStage_length (x : List Char) : (quotesStage x).length = x.length := by
  simp [quotesStage]

theorem quotesStage_id_of_count {x : List Char}
    (h : x.countP isQuoteVariant = 0) : quotesStage x = x := by
  induction x with
  | nil => rfl
  | cons c t ih =>
    rw [List.countP_cons] at h
    by_cases hc : isQuoteVariant c
    · simp [hc] at h
    · have hv : isQuoteVariant c = false := Bool.eq_false_iff.mpr hc
      have ht : t.countP isQuoteVariant = 0 := by
        simp [hv] at h
        exact List.countP_eq_zero.mpr (by intro a ha; simp [h a ha])
      have := ih ht
      simp only [quotesStage] at this ⊢
      simp [canonChar_eq_of_not_variant hv, this]

/-! ## The cleaning measure and the pass fixed point -/

theorem cleanMeasure_le_of_sublist {y x : List Char} (h : y <+ x) :
    cleanMeasure y ≤ cleanMeasure x := by
  have h1 := h.length_le
  have h2 := h.countP_le (p := isQuoteVariant)
  unfold cleanMeasure
  omega

theorem cleanMeasure_lt_of_sublist_ne {y x : List Char} (h : y <+ x) (hne : y ≠ x) :
    cleanMeasure y < cleanMeasure x := by
  have hl : y.length < x.length :=
    Nat.lt_of_le_of_ne h.length_le (fun he => hne (h.eq_of_length he))
  have h2 := h.countP_le (p := isQuoteVariant)
  unfold cleanMeasure
  omega

theorem stageGood_of_sublist (f : List Char → List Char) (hf : ∀ x, f x <+ x) :
    StageGood f :=
  fun x => ⟨cleanMeasure_le_of_sublist (hf x),
    fun hne => cleanMeasure_lt_of_sublist_ne (hf x) hne⟩

theorem stageGood_quotes : StageGood quotesStage := by
  intro x
  constructor
  · unfold cleanMeasure
    rw [quotesStage_length, quotesStage_count]
    omega
  · intro hne
    have hc : x.countP isQuoteVariant ≠ 0 := fun h => hne (quotesStage_id_of_count h)
    unfold cleanMeasure
    rw [quotesStage_length, quotesStage_count]
    omega

theorem stageGood_stageOn (flag : Bool) (f : List Char → List Char)
    (hf : StageGood f) : StageGood (stageOn flag f) := by
  cases flag
  · intro x; simp [stageOn]
  · intro x; simpa [stageOn] using hf x

theorem stageGood_comp {f g : List Char → List Char}
    (hf : StageGood f) (hg : StageGood g) : StageGood (fun x => g (f x)) := by
  intro x
  constructor
  · exact (hg (f x)).1.trans (hf x).1
  · intro hne
    have hne2 : g (f x) ≠ x := hne
    show cleanMeasure (g (f x)) < cleanMeasure x
    by_cases he : f x = x
    · rw [he] at hne2 ⊢
      exact (hg x).2 hne2
    · exact Nat.lt_of_le_of_lt (hg (f x)).1 ((hf x).2 he)

theorem cleanPass_good (c : CleaningConfig) : StageGood (cleanPass c) := by
  have h1 := stageGood_stageOn c.removeExtraWhitespace _ (stageGood_of_sublist _ wsStage_sublist)
  have h2 := stageGood_stageOn c.normalizeQuotes _ stageGood_quotes
  have h3 := stageGood_stageOn c.fixHyphenation _ (stageGood_of_sublist _ hyphStage_sublist)
  have h4 := stageGood_stageOn c.removePageNumbers _ (stageGood_of_sublist _ pageNumStage_sublist)
  have h5 := stageGood_stageOn c.removeHeaders _ (stageGood_of_sublist _ headerStage_sublist)
  have h6 := stageGood_stageOn c.removeFooters _ (stageGood_of_sublist _ footerStage_sublist)
  have hcomp := stageGood_comp (stageGood_comp (stageGood_comp (stageGood_comp
    (stageGood_comp h1 h2) h3) h4) h5) h6
  intro x
  have hx := hcomp x
  simp only [cleanPass]
  exact hx

theorem cleanIter_fixed (c : CleaningConfig) :
    ∀ fuel x, cleanMeasure x < fuel →
      cleanPass c (cleanIter c fuel x) = cleanIter c fuel x := by
  intro fuel
  induction fuel with
  | zero => intro x h; exact absurd h (Nat.not_lt_zero _)
  | succ n ih =>
    intro x h
    simp only [cleanIter]
    by_cases he : cleanPass c x = x
    · rw [if_pos he]
      exact he
    · rw [if_neg he]
      apply ih
      have hlt := (cleanPass_good c x).2 he
      omega

theorem cleanIter_of_fixed (c : CleaningConfig) (x : List Char)
    (h : cleanPass c x = x) : ∀ fuel, cleanIter c fuel x = x := by
  intro fuel
  cases fuel with
  | zero => rfl
  | succ n => simp [cleanIter, h]

theorem cleanPass_cleanText (c : CleaningConfig) (x : List Char) :
    cleanPass c (cleanText c x) = cleanText c x :=
  cleanIter_fixed c _ x (Nat.lt_succ_self _)

theorem cleanText_idem (c : CleaningConfig) (x : List Char) :
    cleanText c (cleanText c x) = cleanText c x :=
  cleanIter_of_fixed c (cleanText c x) (cleanPass_cleanText c x) _

/-! ## Lemmas about the keyed state maps -/

theorem find?_map_set (m : List (String × StatusEntry)) (k : String) (e : StatusEntry)
    (hm : m.any (fun p => p.1 = k) = true) :
    (m.map (fun p => if p.1 = k then (k, e) else p)).find? (fun p => p.1 = k) =
      some (k, e) := by
  induction m with
  | nil => simp at hm
  | cons p t ih =>
    by_cases hp : p.1 = k
    · simp [hp]
    · have hd : (decide (p.1 = k)) = false := by simp [hp]
      rw [List.any_cons, hd, Bool.false_or] at hm
      simp [hp, ih hm]

theorem find?_append_single (m : List (String × StatusEntry)) (k : String) (e : StatusEntry)
    (hm : m.any (fun p => p.1 = k) = false) :
    (m ++ [(k, e)]).find? (fun p => p.1 = k) = some (k, e) := by
  rw [List.find?_append]
  have hnone : m.find? (fun p => p.1 = k) = none := by
    rw [List.find?_eq_none]
    intro x hx hpx
    have : m.any (fun p => p.1 = k) = true :=
      List.any_eq_true.mpr ⟨x, hx, hpx⟩
    rw [hm] at this
    cases this
  rw [hnone]
  simp

theorem getPS_setPS (m : List (String × StatusEntry)) (k : String) (e : StatusEntry) :
    getPS (setPS m k e) k = some e := by
  unfold setPS getPS
  by_cases hm : m.any (fun p => p.1 = k)
  · rw [if_pos hm, find?_map_set m k e hm]
    rfl
  · rw [if_neg hm, find?_append_single m k e (Bool.eq_false_iff.mpr hm)]
    rfl

theorem find?_map_update (fs : List FileRec) (i : String) (u : FileRec → FileRec)
    (hu : ∀ f, (u f).id = f.id) :
    (fs.map (fun f => if f.id = i then u f else f)).find? (fun f => f.id = i) =
      (fs.find? (fun f => f.id = i)).map u := by
  induction fs with
  | nil => rfl
  | cons f t ih =>
    by_cases h : f.id = i
    · have hid : (u f).id = i := by rw [hu f]; exact h
      simp [h, hid]
    · simp [h, ih]

theorem getFile_processDocument_ok (s : AppState) (i : String)
    (chunks : List Chunk) (md : String) (f : FileRec)
    (hf : getFile s i = some f) :
    getFile (processDocument s i (ApiResult.ok chunks md)) i =
      some { f with status := "completed", chunks := chunks, metadata := some md } := by
  unfold getFile at hf ⊢
  simp only [processDocument]
  rw [find?_map_update s.files i
    (fun g => { g with status := "completed", chunks := chunks, metadata := some md })
    (fun g => rfl), hf]
  rfl

/-! ## Claim theorems -/

/-- Claim C1, counterexample: with the vector-store collaborator
disconnected, `sendToWeaviate` does not fail with a `ConnectionError` —
it silently returns, leaving the state untouched and reporting no error
at all, so the claim's "fails fast with a ConnectionError" is false on
this concrete state. -/
theorem claim_C1_counterexample :
    sendToWeaviate exStateDisconnected (IndexApiResult.err "network down") =
      (exStateDisconnected, SendOutcome.skipped) ∧
    SendOutcome.skipped ≠ SendOutcome.connectionError := by
  decide

/-- Claim C1, amended: whenever the vector-store or embedding
collaborator reports a status other than `connected`, `sendToWeaviate`
returns early as a silent no-op: the whole state — in particular every
document's status and `indexingStats` — is unchanged, and no
`ConnectionError` (indeed no error of any kind) is raised or recorded. -/
theorem claim_C1_amended (s : AppState) (r : IndexApiResult)
    (h : ¬(s.weaviateStatus = "connected" ∧ s.embeddingStatus = "connected")) :
    sendToWeaviate s r = (s, SendOutcome.skipped) := by
  rcases hcd : s.currentDocument with _ | cd <;> simp [sendToWeaviate, hcd, h]

/-- Witness for `claim_C1_amended` at a concrete disconnected state. -/
theorem claim_C1_witness :
    sendToWeaviate exStateDisconnected (IndexApiResult.ok exStats) =
      (exStateDisconnected, SendOutcome.skipped) :=
  claim_C1_amended exStateDisconnected (IndexApiResult.ok exStats) (by decide)

/-- Claim C2: when the awaited index call throws while a document in
status `completed` is being indexed, the document record keeps status
`completed` with its chunks intact (`files` is untouched by the failure
branch), so the document can be re-indexed without re-cleaning or
re-chunking. -/
theorem claim_C2_index_failure_keeps_completed (s : AppState) (cd f : FileRec)
    (m : String) (hcd : s.currentDocument = some cd)
    (hw : s.weaviateStatus = "connected") (he : s.embeddingStatus = "connected")
    (hf : getFile s cd.id = some f) (hst : f.status = "completed") :
    getFile (sendToWeaviate s (IndexApiResult.err m)).1 cd.id = some f ∧
    f.status = "completed" ∧
    (sendToWeaviate s (IndexApiResult.err m)).1.files = s.files := by
  have hfiles : (sendToWeaviate s (IndexApiResult.err m)).1.files = s.files := by
    simp [sendToWeaviate, hcd, hw, he]
  refine ⟨?_, hst, hfiles⟩
  unfold getFile at hf ⊢
  rw [hfiles]
  exact hf

/-- Witness for `claim_C2_index_failure_keeps_completed` at a concrete
connected state with a completed document. -/
theorem claim_C2_witness :
    getFile (sendToWeaviate exState (IndexApiResult.err "boom")).1 exDoc.id = some exDoc ∧
    exDoc.status = "completed" ∧
    (sendToWeaviate exState (IndexApiResult.err "boom")).1.files = exState.files :=
  claim_C2_index_failure_keeps_completed exState exDoc exDoc "boom" rfl rfl rfl
    (by decide) rfl

/-- Claim C3: a successful reprocess always sets the document record's
status to `completed` — regardless of the prior status, including
`indexed` — and wholesale-replaces its chunk set (and the displayed
chunks) with the newly computed ones. -/
theorem claim_C3_reprocess_completes (s : AppState) (cd f : FileRec)
    (chunks : List Chunk) (md : String)
    (hcd : s.currentDocument = some cd) (hf : getFile s cd.id = some f) :
    getFile (reprocessCurrentDocument s (ApiResult.ok chunks md)) cd.id =
      some { f with status := "completed", chunks := chunks, metadata := some md } ∧
    (reprocessCurrentDocument s (ApiResult.ok chunks md)).documentChunks = chunks := by
  constructor
  · have hfiles : (reprocessCurrentDocument s (ApiResult.ok chunks md)).files =
        s.files.map (fun g =>
          if g.id = cd.id then
            { g with status := "completed", chunks := chunks, metadata := some md }
          else g) := by
      simp [reprocessCurrentDocument, hcd]
    unfold getFile at hf ⊢
    rw [hfiles, find?_map_update s.files cd.id
      (fun g => { g with status := "completed", chunks := chunks, metadata := some md })
      (fun g => rfl), hf]
    rfl
  · simp [reprocessCurrentDocument, hcd]

/-- Witness for `claim_C3_reprocess_completes` on a document whose prior
status is `indexed`: the reprocessed record is `completed`, not
`indexed`, and carries exactly the new chunk list. -/
theorem claim_C3_witness :
    getFile (reprocessCurrentDocument exStateIndexed (ApiResult.ok [exChunkB] "md2"))
        exDocIndexed.id =
      some { exDocIndexed with
        status := "completed", chunks := [exChunkB], metadata := some "md2" } ∧
    (reprocessCurrentDocument exStateIndexed (ApiResult.ok [exChunkB] "md2")).documentChunks =
      [exChunkB] :=
  claim_C3_reprocess_completes exStateIndexed exDocIndexed exDocIndexed [exChunkB] "md2"
    rfl (by decide)

/-- Claim C4, counterexample: a failing reprocess does not set the
document record's status to `error` and attaches no message to that
record — the record stays `completed` with `error = none` (the failure is
recorded only in the separate `processingStatus` map), so the claim that
every failing operation leaves status `error` and a message on the
document record is false on this concrete state. -/
theorem claim_C4_counterexample :
    getFile (reprocessCurrentDocument exState (ApiResult.err "boom")) "doc-1" = some exDoc ∧
    exDoc.status = "completed" ∧ exDoc.status ≠ "error" ∧ exDoc.error = none := by
  decide

/-- Claim C4, amended: a failing processing run sets the document record
to status `error` with the message; failing reprocess and indexing runs
leave the `files` records untouched and record status `error` together
with the human-readable message only in the per-document
`processingStatus` entry.  In every case the error is recorded and
queryable under the document's id — never silently dropped. -/
theorem claim_C4_amended :
    (∀ (s : AppState) (i m : String) (f : FileRec), getFile s i = some f →
      getFile (processDocument s i (ApiResult.err m)) i =
        some { f with status := "error", error := some m } ∧
      getPS (processDocument s i (ApiResult.err m)).processingStatus i =
        some ⟨"error", none, some m⟩) ∧
    (∀ (s : AppState) (cd : FileRec) (m : String), s.currentDocument = some cd →
      (reprocessCurrentDocument s (ApiResult.err m)).files = s.files ∧
      getPS (reprocessCurrentDocument s (ApiResult.err m)).processingStatus cd.id =
        some ⟨"error", none, some m⟩) ∧
    (∀ (s : AppState) (cd : FileRec) (m : String), s.currentDocument = some cd →
      s.weaviateStatus = "connected" → s.embeddingStatus = "connected" →
      (sendToWeaviate s (IndexApiResult.err m)).1.files = s.files ∧
      getPS (sendToWeaviate s (IndexApiResult.err m)).1.processingStatus cd.id =
        some ⟨"error", none, some m⟩) := by
  refine ⟨?_, ?_, ?_⟩
  · intro s i m f hf
    constructor
    · unfold getFile at hf ⊢
      simp only [processDocument]
      rw [find?_map_update s.files i
        (fun g => { g with status := "error", error := some m }) (fun g => rfl), hf]
      rfl
    · simp only [processDocument]
      exact getPS_setPS _ _ _
  · intro s cd m hcd
    constructor
    · simp [reprocessCurrentDocument, hcd]
    · simp only [reprocessCurrentDocument, hcd]
      exact getPS_setPS _ _ _
  · intro s cd m hcd hw he
    constructor
    · simp [sendToWeaviate, hcd, hw, he]
    · simp only [sendToWeaviate, hcd, hw, he, and_self, if_true]
      exact getPS_setPS _ _ _

/-- Witness for `claim_C4_amended`: all three failing operations at
concrete states, with the hypotheses discharged by computation. -/
theorem claim_C4_witness :
    (getFile (processDocument exState "doc-1" (ApiResult.err "p-fail")) "doc-1" =
        some { exDoc with status := "error", error := some "p-fail" } ∧
      getPS (processDocument exState "doc-1" (ApiResult.err "p-fail")).processingStatus
        "doc-1" = some ⟨"error", none, some "p-fail"⟩) ∧
    ((reprocessCurrentDocument exState (ApiResult.err "r-fail")).files = exState.files ∧
      getPS (reprocessCurrentDocument exState (ApiResult.err "r-fail")).processingStatus
        exDoc.id = some ⟨"error", none, some "r-fail"⟩) ∧
    ((sendToWeaviate exState (IndexApiResult.err "i-fail")).1.files = exState.files ∧
      getPS (sendToWeaviate exState (IndexApiResult.err "i-fail")).1.processingStatus
        exDoc.id = some ⟨"error", none, some "i-fail"⟩) :=
  ⟨claim_C4_amended.1 exState "doc-1" "p-fail" exDoc (by decide),
   claim_C4_amended.2.1 exState exDoc "r-fail" rfl,
   claim_C4_amended.2.2 exState exDoc "i-fail" rfl rfl rfl⟩

/-- Claim C5: every chunk configuration violating
`chunkSize > minChunkSize > 0` or `overlapSize < chunkSize` is rejected
by `split` with a `ConfigError` before any chunk is produced, and a
rejected (failing) reprocess call leaves the document records
unchanged. -/
theorem claim_C5_config_rejected (text : List Char) (cfg : ChunkCfg)
    (s : AppState) (m : String) (h : validChunkCfg cfg = false) :
    split text cfg = Except.error ChunkError.configError ∧
    (reprocessCurrentDocument s (ApiResult.err m)).files = s.files := by
  constructor
  · simp [split, h]
  · rcases hcd : s.currentDocument with _ | cd <;> simp [reprocessCurrentDocument, hcd]

/-- Witness for `claim_C5_config_rejected` at the spec's scenario 4
configuration `{chunkSize := 50, minChunkSize := 80}`. -/
theorem claim_C5_witness :
    split ['a', 'b', 'c'] ⟨50, 0, 80⟩ = Except.error ChunkError.configError ∧
    (reprocessCurrentDocument exState (ApiResult.err "config")).files = exState.files :=
  claim_C5_config_rejected ['a', 'b', 'c'] ⟨50, 0, 80⟩ exState "config" (by decide)

/-- Claim C6, counterexample: completions are applied in arrival order
with no generation check.  Here run A (requested first, old config) and
run B (requested later, new config) are both in flight for `doc-1`;
B's response is applied first and A's arrives last, so the final record
carries A's stale chunks `[exChunkA]`, not the most recently requested
result `[exChunkB]` — the prior run's result is not discarded. -/
theorem claim_C6_counterexample :
    getFile (processDocument
        (processDocument exState "doc-1" (ApiResult.ok [exChunkB] "mdB"))
        "doc-1" (ApiResult.ok [exChunkA] "mdA")) "doc-1" =
      some { exDoc with status := "completed", chunks := [exChunkA], metadata := some "mdA" } ∧
    [exChunkA] ≠ [exChunkB] := by
  decide

/-- Claim C6, amended: the code performs no cancellation and keeps no
generation counter: every run completion unconditionally overwrites the
document's chunks and metadata, so after two completions for the same id
the record holds whichever result was applied last — last-writer-wins in
arrival order, not necessarily the most recently requested
configuration. -/
theorem claim_C6_amended (s : AppState) (i : String) (f : FileRec)
    (c₁ c₂ : List Chunk) (m₁ m₂ : String) (hf : getFile s i = some f) :
    getFile (processDocument (processDocument s i (ApiResult.ok c₁ m₁)) i
        (ApiResult.ok c₂ m₂)) i =
      some { f with status := "completed", chunks := c₂, metadata := some m₂ } := by
  have h1 := getFile_processDocument_ok s i c₁ m₁ f hf
  have h2 := getFile_processDocument_ok _ i c₂ m₂ _ h1
  exact h2

/-- Witness for `claim_C6_amended`: two completions applied in order at a
concrete state; the record ends with the later-applied chunks. -/
theorem claim_C6_witness :
    getFile (processDocument
        (processDocument exState "doc-1" (ApiResult.ok [exChunkA] "mdA"))
        "doc-1" (ApiResult.ok [exChunkB] "mdB")) "doc-1" =
      some { exDoc with status := "completed", chunks := [exChunkB], metadata := some "mdB" } :=
  claim_C6_amended exState "doc-1" exDoc [exChunkA] [exChunkB] "mdA" "mdB" (by decide)

set_option maxRecDepth 100000 in
/-- Claim C7: the fixed strategy slides a window of width `chunkSize`
with stride `chunkSize − overlapSize`, truncates the final window to the
remaining text and merges it into the previous chunk only when its
length is below `minChunkSize`.  For a 250-character cleaned text with
`chunkSize = 100, overlapSize = 20, minChunkSize = 30`, `split` yields
exactly the offsets `[0,100), [80,180), [160,250)`; a 185-character text
exhibits the merge (final window `[160,185)` is short, so the previous
chunk absorbs the tail). -/
theorem claim_C7_fixed_chunking :
    fixedOffsets 250 ⟨100, 20, 30⟩ = [(0, 100), (80, 180), (160, 250)] ∧
    (split (List.replicate 250 'a') ⟨100, 20, 30⟩).map
        (fun cs => cs.map (fun ch => (ch.start, ch.stop))) =
      Except.ok [(0, 100), (80, 180), (160, 250)] ∧
    fixedOffsets 185 ⟨100, 20, 30⟩ = [(0, 100), (80, 185)] := by
  refine ⟨by decide, ?_, by decide⟩
  rfl

set_option maxRecDepth 100000 in
/-- Claim C8, counterexample: re-cleaning already-cleaned text does
return the same text, but not the same full `clean` result — the second
pass's stats describe the shorter input (`original_length` 4 versus 3
here, reduction 0), so `clean(clean(x,c).text, c) = clean(x,c)` read as
result equality fails at this concrete input. -/
theorem claim_C8_counterexample :
    clean (clean ['a', ' ', ' ', 'b'] exCleanCfg).text exCleanCfg ≠
      clean ['a', ' ', ' ', 'b'] exCleanCfg := by
  decide

/-- Claim C8, amended: cleaning is idempotent on the text for every
input and every cleaning configuration —
`clean(clean(x,c).text, c).text = clean(x,c).text` — while the stats
records of the two calls coincide only when the first pass removed
nothing. -/
theorem claim_C8_amended (x : List Char) (c : CleaningConfig) :
    (clean (clean x c).text c).text = (clean x c).text := by
  show cleanText c (cleanText c x) = cleanText c x
  exact cleanText_idem c x

/-- Claim C9: `handleConfigChange(section, key, value)` stores `value`
at exactly `config[section][key]` and leaves every other key of that
section and every other section untouched. -/
theorem claim_C9_config_frame (cfg : Config) (sect key : String) (v : ConfigValue) :
    handleConfigChange cfg sect key v sect key = v ∧
    ∀ s' k', s' ≠ sect ∨ k' ≠ key →
      handleConfigChange cfg sect key v s' k' = cfg s' k' := by
  constructor
  · simp [handleConfigChange]
  · intro s' k' h
    unfold handleConfigChange
    rcases h with h | h
    · rw [if_neg h]
    · by_cases hs : s' = sect
      · subst hs
        rw [if_pos rfl, if_neg h]
      · rw [if_neg hs]

/-- Witness for `claim_C9_config_frame` at a concrete configuration:
the updated cell holds the new value and an untouched cell in another
section is unchanged. -/
theorem claim_C9_witness :
    handleConfigChange exConfig "chunking" "chunkSize" (ConfigValue.num 500)
        "chunking" "chunkSize" = ConfigValue.num 500 ∧
    handleConfigChange exConfig "chunking" "chunkSize" (ConfigValue.num 500)
        "cleaning" "removeHeaders" = exConfig "cleaning" "removeHeaders" :=
  ⟨(claim_C9_config_frame exConfig "chunking" "chunkSize" (ConfigValue.num 500)).1,
   (claim_C9_config_frame exConfig "chunking" "chunkSize" (ConfigValue.num 500)).2
     "cleaning" "removeHeaders" (Or.inl (by decide))⟩

/-- Preservation of the progress invariant by one event. -/
theorem runStep_preserves (st : RunState) (e : RunEvent)
    (h : progressInv st) : progressInv (runStep st e) := by
  cases e with
  | start k =>
    cases k <;> simp [runStep, progressInv, runStatusName, inFlightStatus]
  | tick i =>
    rcases hiv : st.intervals[i]? with _ | iv
    · simpa [runStep, hiv] using h
    · by_cases hle : iv.counter + runIncrement iv.kind ≤ 90
      · rcases iv with ⟨k, c⟩
        cases k <;>
          simp [runStep, hiv, runIncrement, progressInv, runStatusName,
            inFlightStatus] at hle ⊢ <;>
          simp [hle] <;> omega
      · simp only [runStep, hiv]
        rw [if_neg hle]
        exact h
  | finishOk i =>
    rcases hiv : st.intervals[i]? with _ | iv
    · simpa [runStep, hiv] using h
    · rcases iv with ⟨k, c⟩
      cases k <;> simp [runStep, hiv, progressInv, runDoneStatus, inFlightStatus]
  | finishErr i m =>
    rcases hiv : st.intervals[i]? with _ | iv
    · simpa [runStep, hiv] using h
    · simp [runStep, hiv, progressInv, inFlightStatus]

/-- Claim C10: along every run history — interleaving duplicate runs,
settlement, and ticks of intervals leaked by failed runs, which the
source never clears — the recorded progress stays in `[0, 100]`; any
entry showing an in-flight status carries progress at most 90; and an
entry shows progress 100 exactly when it records a successful completion
(`completed` or `indexed`). -/
theorem claim_C10_progress_invariant (evs : List RunEvent) :
    progressInv (runExec evs) := by
  have hgen : ∀ (st : RunState), progressInv st → progressInv (evs.foldl runStep st) := by
    induction evs with
    | nil => intro st h; exact h
    | cons e t ih => intro st h; exact ih _ (runStep_preserves st e h)
  exact hgen _ (by simp [progressInv])

/-- Witness for `claim_C10_progress_invariant` on a concrete history in
which a processing run fails and its leaked interval keeps ticking —
overwriting the error entry — while a second, duplicate run settles
successfully. -/
theorem claim_C10_witness :
    progressInv (runExec
      [RunEvent.start RunKind.processingRun, RunEvent.tick 0,
       RunEvent.finishErr 0 "boom", RunEvent.tick 0,
       RunEvent.start RunKind.processingRun, RunEvent.tick 1,
       RunEvent.tick 0, RunEvent.finishOk 1]) :=
  claim_C10_progress_invariant
    [RunEvent.start RunKind.processingRun, RunEvent.tick 0,
     RunEvent.finishErr 0 "boom", RunEvent.tick 0,
     RunEvent.start RunKind.processingRun, RunEvent.tick 1,
     RunEvent.tick 0, RunEvent.finishOk 1]

end CesameEtl
